import Mathlib

/-!
Verification development for the Mac-OS-Disk-Cleaner repository.

The repository has two implementations of the scan/apply engine:
* `script.js` (second half of the file): a Node.js HTTP server with
  `isDenyListed`, `ensureHomeScoped`, `walkCollect`, `scanHandler`,
  `safeTrashMove`, `applyHandler`, `parseQuery`.
* a bash CLI (`disk_cleaner.sh`): `deny_listed`, `ensure_home_scope`,
  `safe_trash`, `apply_plan`.

Paths are modelled as lists of characters (`Path := List Char`).  All
functions below that model JavaScript are translated on already-resolved
absolute paths: `path.resolve` on an absolute, `.`/`..`-free path is the
identity, and every path the scanner constructs (by `path.join` of a fixed
absolute base with `readdir` entry names) is of that form, so `resolve` is
modelled as the identity.  `path.sep` is `/`.
-/

namespace DiskCleaner

/-- Paths (and other JS/bash strings) as lists of characters. -/
abbrev Path := List Char

/-- Convert a Lean string literal to a `Path`. -/
def str (s : String) : Path := s.data

/-- Substring containment: `containsSub pat s` is true iff `s` can be split
as `a ++ pat ++ b`.  Models a JavaScript regex match of a literal pattern
(`String.prototype.match` with no anchors) and a bash `*pat*` glob. -/
def containsSub (pat : Path) : Path → Bool
  | [] => pat.isEmpty
  | c :: t => pat.isPrefixOf (c :: t) || containsSub pat t

/-- Return the suffix after the first occurrence of `pat`, if any. -/
def dropThrough (pat : Path) : Path → Option Path
  | [] => none
  | c :: t =>
    if pat.isPrefixOf (c :: t) then some ((c :: t).drop pat.length)
    else dropThrough pat t

/-! ## SafetyPolicy, server side (`script.js`) -/

/-- `script.js` `ensureHomeScoped`: the resolved path starts with
`path.resolve(HOME) + path.sep`. -/
def ensureHomeScoped (home p : Path) : Bool :=
  (home ++ str "/").isPrefixOf p

/-- `script.js` `isDenyListed`: raw `String.prototype.startsWith` checks
against `HOME/Pictures`, `HOME/Library/Mail`, `HOME/Library/Mobile
Documents`, `HOME/Desktop`, `HOME/Documents`, plus the regex
`/\.photoslibrary[\/\\]/` (the pattern `.photoslibrary` followed by a
forward or back slash, anywhere in the path).  Note these are naive string
prefixes, not segment-boundary checks. -/
def isDenyListed (home p : Path) : Bool :=
  (home ++ str "/Pictures").isPrefixOf p
  || (containsSub (str ".photoslibrary/") p || containsSub (str ".photoslibrary\\") p)
  || (home ++ str "/Library/Mail").isPrefixOf p
  || (home ++ str "/Library/Mobile Documents").isPrefixOf p
  || (home ++ str "/Desktop").isPrefixOf p
  || (home ++ str "/Documents").isPrefixOf p

/-! ## SafetyPolicy, CLI side (`disk_cleaner.sh`) -/

/-- bash `ensure_home_scope`: `case "$p" in "$HOME_DIR"/*)`. -/
def ensure_home_scope (home p : Path) : Bool :=
  (home ++ str "/").isPrefixOf p

/-- bash glob `"$HOME_DIR"/*Photos*.photoslibrary/*`: the path starts with
`HOME/` and, in the remainder, `Photos` occurs followed (at or after its
end) by `.photoslibrary/`.  `dropThrough` takes the suffix after the first
`Photos`; if any occurrence pair matches the glob then the first
occurrence of `Photos` also does, so this matcher is equivalent to the
glob. -/
def matchesPhotosLib (home p : Path) : Bool :=
  if (home ++ str "/").isPrefixOf p then
    match dropThrough (str "Photos") (p.drop (home.length + 1)) with
    | none => false
    | some rest => containsSub (str ".photoslibrary/") rest
  else false

/-- bash `deny_listed`: `case` patterns
`"$HOME_DIR"/Pictures/*`, `"$HOME_DIR"/*Photos*.photoslibrary/*`,
`"$HOME_DIR"/Library/Mail/*`, `"$HOME_DIR"/Library/Mobile\ Documents/*`,
`"$HOME_DIR"/Desktop/*`, `"$HOME_DIR"/Documents/*`.
Each `root/*` pattern is a prefix match on `root/`, i.e. a check at a
path-segment boundary. -/
def deny_listed (home p : Path) : Bool :=
  ((home ++ str "/Pictures/").isPrefixOf p || matchesPhotosLib home p)
  || (home ++ str "/Library/Mail/").isPrefixOf p
  || (home ++ str "/Library/Mobile Documents/").isPrefixOf p
  || (home ++ str "/Desktop/").isPrefixOf p
  || (home ++ str "/Documents/").isPrefixOf p

/-! ## Collector (`script.js` `walkCollect` and `scanHandler`)

The filesystem seen by one scan root is modelled as a finite tree: the
value `fsp.readdir` / `fsp.lstat` would report for each entry.  `lstat`
does not follow symlinks, so a symlink is a leaf carrying no children —
exactly what `walkCollect` can observe before it skips it. -/

/-- A directory tree as observed through `lstat`/`readdir`.  File mtimes
are in epoch milliseconds (`st.mtimeMs`). -/
inductive FsTree where
  | file (size : Nat) (mtimeMs : Int)
  | symlink
  | dir (entries : List (Path × FsTree))

/-- Scan filter options (`opts` of `walkCollect`): `minBytes` in bytes
(`0` or unset imposes no constraint, matching JS truthiness of
`opts.minBytes`), `olderDays` in days (`0` or unset imposes no
constraint, matching `opts.olderDays > 0`). -/
structure ScanOpts where
  minBytes : Nat
  olderDays : Nat
deriving DecidableEq, Repr

/-- A report item as pushed by `walkCollect`: `mtime` is
`Math.floor(st.mtimeMs / 1000)`. -/
structure ScanItem where
  path : Path
  bytes : Nat
  mtime : Int
  category : String
  reason : String
  trashable : Bool
deriving DecidableEq, Repr

/-- The size/age filter from the file branch of `walkCollect`:
`if (opts.minBytes && bytes < opts.minBytes) continue;` and
`if (opts.olderDays > 0) { const ageMs = Date.now() - mtimeMs;
if (ageMs < opts.olderDays * 86400 * 1000) continue; }`.
`nowMs` stands for `Date.now()`. -/
def fileAccepted (opts : ScanOpts) (nowMs : Int) (bytes : Nat) (mtimeMs : Int) : Bool :=
  if opts.minBytes ≠ 0 ∧ bytes < opts.minBytes then false
  else if 0 < opts.olderDays ∧ nowMs - mtimeMs < (opts.olderDays : Int) * 86400 * 1000 then false
  else true

mutual

/-- One entry of the `for (const ent of ents)` loop in `walkCollect`:
build `full = path.join(current, ent.name)`, skip it unless it is
home-scoped and not deny-listed, skip symlinks, queue directories, and
filter-test files.  The JS loop uses an explicit LIFO stack of pending
directories; the output here is the same set of items in depth-first
rather than stack order, which no claim depends on. -/
def walkEntry (home : Path) (opts : ScanOpts) (nowMs : Int) (reason category : String)
    (current : Path) (name : Path) (t : FsTree) : List ScanItem :=
  if !ensureHomeScoped home (current ++ str "/" ++ name)
      || isDenyListed home (current ++ str "/" ++ name) then []
  else
    match t with
    | .symlink => []
    | .dir es => walkEntries home opts nowMs reason category (current ++ str "/" ++ name) es
    | .file size mtimeMs =>
      if fileAccepted opts nowMs size mtimeMs then
        [⟨current ++ str "/" ++ name, size, Int.fdiv mtimeMs 1000, category, reason, true⟩]
      else []

/-- The items collected from the entries of one directory. -/
def walkEntries (home : Path) (opts : ScanOpts) (nowMs : Int) (reason category : String)
    (current : Path) (es : List (Path × FsTree)) : List ScanItem :=
  match es with
  | [] => []
  | (name, t) :: rest =>
    walkEntry home opts nowMs reason category current name t
    ++ walkEntries home opts nowMs reason category current rest

end

/-- `script.js` `walkCollect(baseDir, opts, pushItem, reason, category)`:
read the base directory and walk its entries.  A base that is not a
directory makes the initial `readdir` fail, which the code swallows
(`continue`), producing no items. -/
def walkCollect (home : Path) (opts : ScanOpts) (nowMs : Int) (reason category : String)
    (baseDir : Path) (t : FsTree) : List ScanItem :=
  match t with
  | .dir es => walkEntries home opts nowMs reason category baseDir es
  | _ => []

/-- One scan root as resolved by `scanHandler`'s category dispatch: a base
directory (e.g. `HOME/Library/Caches`), the tree found there, and the
fixed reason/category strings passed to `walkCollect` for it.  The
category-to-roots resolution itself only selects which `(base, reason,
category)` triples are walked, so the scan pipeline is modelled over an
arbitrary list of such roots. -/
structure ScanRoot where
  base : Path
  tree : FsTree
  reason : String
  category : String

/-- All items collected by `scanHandler`'s sequence of `walkCollect`
calls, in root order. -/
def scanItems (home : Path) (opts : ScanOpts) (nowMs : Int) : List ScanRoot → List ScanItem
  | [] => []
  | r :: rest =>
    walkCollect home opts nowMs r.reason r.category r.base r.tree
    ++ scanItems home opts nowMs rest

/-- The `totals` accumulator of `scanHandler`. -/
structure Totals where
  count : Nat
  bytes : Nat
deriving DecidableEq, Repr

/-- `scanHandler`'s `items.reduce((acc, it) => {acc.count += 1; acc.bytes
+= Number(it.bytes) || 0; return acc;}, {count: 0, bytes: 0})`. -/
def computeTotals (items : List ScanItem) : Totals :=
  items.foldl (fun acc it => ⟨acc.count + 1, acc.bytes + it.bytes⟩) ⟨0, 0⟩

/-- The report body built by `scanHandler` (the `generatedAt` timestamp
string is omitted; no claim concerns it). -/
structure ScanReport where
  home : Path
  totals : Totals
  categories : List String
  items : List ScanItem

/-- `script.js` `scanHandler`: walk every resolved root, then assemble the
report with `totals` computed by the reduce. -/
def scanHandler (home : Path) (opts : ScanOpts) (nowMs : Int)
    (cats : List String) (roots : List ScanRoot) : ScanReport :=
  let items := scanItems home opts nowMs roots
  ⟨home, computeTotals items, cats, items⟩

/-! ## PlanExecutor (`script.js` `applyHandler`, `safeTrashMove`,
`parseQuery`)

The filesystem mutated by an apply call is modelled as a finite map from
absolute paths to nodes, plus a set of paths on which the underlying
mutation syscall (`fs.renameSync` / `fs.rmSync`) throws — the fault
oracle that lets per-item `FilesystemError`s be expressed.  Lookups
model `fs.statSync` (follows symlinks one level; the model does not
chain symlink-to-symlink, which no claim needs) and `fs.existsSync`
(true iff `stat` succeeds). -/

/-- A filesystem node as relevant to `applyHandler`. -/
inductive FNode where
  | file (size : Nat)
  | dir
  | symlink (target : Path)
deriving DecidableEq, Repr

/-- Association-list lookup used by the filesystem map. -/
def lookupEntries : List (Path × FNode) → Path → Option FNode
  | [], _ => none
  | e :: rest, p => if e.1 = p then some e.2 else lookupEntries rest p

/-- Filesystem state for an apply call. -/
structure Fsys where
  entries : List (Path × FNode)
  failPaths : List Path
deriving DecidableEq, Repr

/-- Raw (lstat-like) lookup. -/
def Fsys.lookup (fs : Fsys) (p : Path) : Option FNode :=
  lookupEntries fs.entries p

/-- `fs.statSync`: follow a symlink to its target (one level). -/
def Fsys.stat (fs : Fsys) (p : Path) : Option FNode :=
  match fs.lookup p with
  | some (.symlink t) =>
    match fs.lookup t with
    | some (.symlink _) => none
    | o => o
  | o => o

/-- `fs.existsSync`: true iff the path can be stat-ed (a dangling
symlink does not exist). -/
def Fsys.existsP (fs : Fsys) (p : Path) : Bool :=
  (fs.stat p).isSome

/-- `const bytes = st ? Number(st.size) || 0 : 0` — the size recorded for
an item at apply time (directories report 0 in the model). -/
def statBytes (fs : Fsys) (p : Path) : Nat :=
  match fs.stat p with
  | some (.file sz) => sz
  | _ => 0

/-- Remove exactly the entry at `p` (unlink of a file or symlink). -/
def Fsys.removeOne (fs : Fsys) (p : Path) : Fsys :=
  ⟨fs.entries.filter (fun e => !decide (e.1 = p)), fs.failPaths⟩

/-- Remove the entry at `p` and everything below it
(`fs.rmSync(p, {recursive: true})` on a directory). -/
def Fsys.removeTree (fs : Fsys) (p : Path) : Fsys :=
  ⟨fs.entries.filter (fun e => !(decide (e.1 = p) || (p ++ str "/").isPrefixOf e.1)),
   fs.failPaths⟩

/-- `fs.renameSync(p, dest)`: move the entry at `p`, together with every
entry below it, under `dest`. -/
def Fsys.renameP (fs : Fsys) (src dest : Path) : Fsys :=
  ⟨fs.entries.map (fun e =>
      if e.1 = src then (dest, e.2)
      else if (src ++ str "/").isPrefixOf e.1 then (dest ++ e.1.drop src.length, e.2)
      else e),
   fs.failPaths⟩

/-- `fs.rmSync` as invoked by the delete branch of `applyHandler`
(`recursive` is set iff `statSync` reported a directory).  Node's `rm`
does not follow symlinks: on a symlink path only the link is removed. -/
def rmModel (fs : Fsys) (p : Path) (recursive : Bool) : Fsys :=
  match fs.lookup p with
  | some (.symlink _) => fs.removeOne p
  | some .dir => if recursive then fs.removeTree p else fs
  | some (.file _) => fs.removeOne p
  | none => fs

/-- `path.basename`: the final path segment. -/
def basename (p : Path) : Path :=
  ((p.reverse.takeWhile (fun c => !decide (c = '/'))).reverse)

/-- `script.js` `ensureTrashDir`: `HOME/.Trash`, created with `mkdirSync`
if `existsSync` is false (creation is modelled as always succeeding; the
fault oracle only covers the rename/rm syscalls). -/
def ensureTrashDir (home : Path) (fs : Fsys) : Path × Fsys :=
  let t := home ++ str "/.Trash"
  match fs.lookup t with
  | some _ => (t, fs)
  | none => (t, ⟨(t, FNode.dir) :: fs.entries, fs.failPaths⟩)

/-- `script.js` `safeTrashMove`: destination is `trash/name`, or
`trash/name-ts` when that base name already exists (`ts` stands for the
second-granularity timestamp string).  The rename itself throws when the
fault oracle names the source path; the `.Trash` creation performed by
`ensureTrashDir` has already happened by then, so the filesystem is
returned alongside the outcome. -/
def safeTrashMove (home ts : Path) (fs : Fsys) (p : Path) : Except String Path × Fsys :=
  let (t, fs1) := ensureTrashDir home fs
  let name := basename p
  let dest0 := t ++ str "/" ++ name
  let dest := if fs1.existsP dest0 then dest0 ++ str "-" ++ ts else dest0
  if p ∈ fs1.failPaths then (Except.error "rename failed", fs1)
  else (Except.ok dest, fs1.renameP p dest)

/-- Apply modes. -/
inductive ApplyMode where
  | trash
  | delete
deriving DecidableEq, Repr

/-- `parseQuery`: `out.mode = q.mode === 'delete' ? 'delete' : 'trash'`.
`none` models an absent `mode` query parameter. -/
def parseMode (m : Option Path) : ApplyMode :=
  if m = some (str "delete") then ApplyMode.delete else ApplyMode.trash

/-- `parseQuery`: `out.dryRun = q.dryRun === '1' || q.dryRun === 'true'`. -/
def parseDryRun (s : Option Path) : Bool :=
  decide (s = some (str "1")) || decide (s = some (str "true"))

/-- Per-item terminal statuses of `applyHandler`, named as in the spec's
ApplyResult; the wire strings are `'missing'`, `'skipped'` with reason
`'outside_home'`, `'skipped'` with reason `'deny_listed'`, `'dry'`,
`'deleted'`, `'trashed'`, `'error'` respectively. -/
inductive ApplyStatus where
  | missing
  | outsideHome
  | denyListed
  | dryPreviewed
  | deleted
  | trashed
  | error
deriving DecidableEq, Repr

/-- One element of the `details` array; `dest` is only set by the trash
branch and `err` only by the error branch. -/
structure ApplyDetail where
  path : Path
  status : ApplyStatus
  bytes : Nat
  dest : Option Path
  err : Option String
deriving DecidableEq, Repr

/-- A plan item `{path, category}` from the parsed plan JSON. -/
structure PlanItem where
  path : Path
  category : String
deriving DecidableEq, Repr

/-- The parsed plan body `{items: [...]}`. -/
structure Plan where
  items : List PlanItem
deriving DecidableEq, Repr

/-- Result of processing one plan item: the detail pushed, whether the
`totalBytes += bytes; count++` accumulation ran, the bytes it added, and
the filesystem afterwards. -/
structure StepRes where
  detail : ApplyDetail
  counted : Bool
  addBytes : Nat
  fs : Fsys
deriving Repr

/-- One iteration of the `for (const it of plan.items)` loop of
`applyHandler`: missing check, home-scope check, deny-list re-check,
stat, dry-run preview, then the trash/delete mutation with its per-item
`try`/`catch`. -/
def applyItem (home ts : Path) (dryRun : Bool) (mode : ApplyMode)
    (fs : Fsys) (it : PlanItem) : StepRes :=
  let p := it.path
  if p.isEmpty || !fs.existsP p then ⟨⟨p, ApplyStatus.missing, 0, none, none⟩, false, 0, fs⟩
  else if !ensureHomeScoped home p then ⟨⟨p, ApplyStatus.outsideHome, 0, none, none⟩, false, 0, fs⟩
  else if isDenyListed home p then ⟨⟨p, ApplyStatus.denyListed, 0, none, none⟩, false, 0, fs⟩
  else
    let st := fs.stat p
    let bytes := statBytes fs p
    if dryRun then ⟨⟨p, ApplyStatus.dryPreviewed, bytes, none, none⟩, true, bytes, fs⟩
    else
      match mode with
      | ApplyMode.delete =>
        if p ∈ fs.failPaths then
          ⟨⟨p, ApplyStatus.error, 0, none, some "rm failed"⟩, false, 0, fs⟩
        else
          let isDir := match st with | some FNode.dir => true | _ => false
          ⟨⟨p, ApplyStatus.deleted, bytes, none, none⟩, true, bytes, rmModel fs p isDir⟩
      | ApplyMode.trash =>
        match safeTrashMove home ts fs p with
        | (Except.error msg, fs1) =>
          ⟨⟨p, ApplyStatus.error, 0, none, some msg⟩, false, 0, fs1⟩
        | (Except.ok dest, fs1) =>
          ⟨⟨p, ApplyStatus.trashed, bytes, some dest, none⟩, true, bytes, fs1⟩

/-- The whole item loop: details in plan order, total count, total bytes,
final filesystem. -/
def applyItems (home ts : Path) (dryRun : Bool) (mode : ApplyMode)
    (fs : Fsys) : List PlanItem → List ApplyDetail × Nat × Nat × Fsys
  | [] => ([], 0, 0, fs)
  | it :: rest =>
    let s := applyItem home ts dryRun mode fs it
    let (ds, c, b, fs2) := applyItems home ts dryRun mode s.fs rest
    (s.detail :: ds, (if s.counted then 1 else 0) + c, s.addBytes + b, fs2)

/-- The `summary` object of the apply response (`human` omitted; it is a
pure formatting of `bytes`). -/
structure ApplySummary where
  count : Nat
  bytes : Nat
  mode : ApplyMode
  dryRun : Bool
deriving DecidableEq, Repr

/-- The apply response body. -/
structure ApplyResult where
  ok : Bool
  summary : ApplySummary
  details : List ApplyDetail
deriving DecidableEq, Repr

/-- `script.js` `applyHandler` on a plan whose body parsed: run the item
loop and assemble the response; the returned filesystem is the state
after all mutations. -/
def applyHandler (home ts : Path) (dryRun : Bool) (mode : ApplyMode)
    (fs : Fsys) (plan : Plan) : ApplyResult × Fsys :=
  let (ds, c, b, fs2) := applyItems home ts dryRun mode fs plan.items
  (⟨true, ⟨c, b, mode, dryRun⟩, ds⟩, fs2)

/-- The HTTP-level outcome of `/api/apply`. -/
inductive ApplyResponse where
  | badRequest
  | okResult (r : ApplyResult)
deriving DecidableEq, Repr

/-- The apply entry point including the body check: a body that fails
`readJsonBody`/`Array.isArray(plan.items)` is answered with a 400 and no
item is processed. -/
def applyEntry (home ts : Path) (dryRun : Bool) (mode : ApplyMode)
    (fs : Fsys) (body : Option Plan) : ApplyResponse × Fsys :=
  match body with
  | none => (ApplyResponse.badRequest, fs)
  | some plan =>
    let (r, fs2) := applyHandler home ts dryRun mode fs plan
    (ApplyResponse.okResult r, fs2)

/-- The statuses whose items the summary accumulates. -/
def countedStatus : ApplyStatus → Bool
  | ApplyStatus.dryPreviewed => true
  | ApplyStatus.deleted => true
  | ApplyStatus.trashed => true
  | _ => false

/-! ## CLI apply (`disk_cleaner.sh` `apply_plan`, `safe_trash`)

`apply_plan` reads the plan file into a list of paths: if any line of the
file contains the substring `"items"` it runs the naive JSON path
extractor (`sed -n 's/.*"path":[[:space:]]*"\([^"]*\)".*/\1/p'`),
otherwise it treats the file as a plain-text list, dropping blank lines
(`grep -v '^[[:space:]]*$'`) and comment lines
(`grep -v '^[[:space:]]*#'`), and then processes the resulting paths one
at a time.  The `count`/`total` accumulators only feed the final log line
and are not modelled; the per-item log lines are modelled as outcomes. -/

/-- A character matched by `[[:space:]]` in the grep/sed patterns, for
line content (newlines never occur inside a line). -/
def isSpaceChar (c : Char) : Bool :=
  decide (c = ' ') || decide (c = '\t')

/-- `grep -v '^[[:space:]]*$'` drops lines that are entirely blank. -/
def isBlankLine (l : Path) : Bool :=
  l.all isSpaceChar

/-- `grep -v '^[[:space:]]*#'` drops lines whose first non-blank
character is `#`. -/
def isCommentLine (l : Path) : Bool :=
  match l.dropWhile isSpaceChar with
  | '#' :: _ => true
  | _ => false

/-- One attempt of the sed pattern `"path":[[:space:]]*"\([^"]*\)"` at the
head of a line suffix: the capture is the quote-free run after the
opening quote, and a closing quote must follow. -/
def tryPathAt (l : Path) : Option Path :=
  if (str "\"path\":").isPrefixOf l then
    let rest := (l.drop 7).dropWhile isSpaceChar
    match rest with
    | '"' :: r =>
      let cap := r.takeWhile (fun c => !decide (c = '"'))
      if (r.drop cap.length).isEmpty then none else some cap
    | _ => none
  else none

/-- The sed substitution `s/.*"path":[[:space:]]*"\([^"]*\)".*/\1/p` on
one line: the leading greedy `.*` makes the rightmost matching occurrence
win. -/
def extractPathScan : Path → Option Path
  | [] => none
  | c :: t =>
    match extractPathScan t with
    | some r => some r
    | none => tryPathAt (c :: t)

/-- `apply_plan`'s dispatch test: `grep -q '"items"' "$plan"`. -/
def planHasItems (lines : List Path) : Bool :=
  lines.any (fun l => containsSub (str "\"items\"") l)

/-- The list of paths `apply_plan` builds in `list_file`. -/
def parsePlanFile (lines : List Path) : List Path :=
  if planHasItems lines then lines.filterMap extractPathScan
  else (lines.filter (fun l => !isBlankLine l)).filter (fun l => !isCommentLine l)

/-- bash `ensure_trash_dir`: `[ ! -d "$t" ]` then `mkdir -p "$t"`, which
fails when a non-directory already sits at `HOME/.Trash`. -/
def ensure_trash_dir (home : Path) (fs : Fsys) : Option (Path × Fsys) :=
  let t := home ++ str "/.Trash"
  match fs.lookup t with
  | some FNode.dir => some (t, fs)
  | some _ => none
  | none => some (t, ⟨(t, FNode.dir) :: fs.entries, fs.failPaths⟩)

/-- bash `safe_trash`: destination `trash/name`, or `trash/name-ts` when
`[ -e "$dest" ]`; the `mv -f` throws when the fault oracle names the
source. -/
def safe_trash (home ts : Path) (fs : Fsys) (p : Path) : Option Fsys :=
  match ensure_trash_dir home fs with
  | none => none
  | some (t, fs1) =>
    let dest0 := t ++ str "/" ++ basename p
    let dest := if fs1.existsP dest0 then dest0 ++ str "-" ++ ts else dest0
    if p ∈ fs1.failPaths then none else some (fs1.renameP p dest)

/-- Per-item outcome of the `apply_plan` loop, one per log line. -/
inductive ShOutcome where
  | missing
  | outsideHome
  | denyListed
  | dryWould
  | trashed
  | trashFailed
  | deleted
  | deleteFailed
deriving DecidableEq, Repr

/-- One iteration of the `while IFS= read -r p` loop of `apply_plan`:
`[ -e "$p" ]`, `ensure_home_scope`, `deny_listed`, then dry-run preview
or `safe_trash` / `rm -rf`. -/
def shApplyItem (home ts : Path) (dryRun useTrash : Bool)
    (fs : Fsys) (p : Path) : ShOutcome × Fsys :=
  if !fs.existsP p then (ShOutcome.missing, fs)
  else if !ensure_home_scope home p then (ShOutcome.outsideHome, fs)
  else if deny_listed home p then (ShOutcome.denyListed, fs)
  else if dryRun then (ShOutcome.dryWould, fs)
  else if useTrash then
    match safe_trash home ts fs p with
    | none => (ShOutcome.trashFailed, fs)
    | some fs1 => (ShOutcome.trashed, fs1)
  else
    if p ∈ fs.failPaths then (ShOutcome.deleteFailed, fs)
    else
      match fs.lookup p with
      | some (FNode.symlink _) => (ShOutcome.deleted, fs.removeOne p)
      | _ => (ShOutcome.deleted, fs.removeTree p)

/-- The `apply_plan` loop over the extracted path list. -/
def shRun (home ts : Path) (dryRun useTrash : Bool)
    (fs : Fsys) : List Path → List (Path × ShOutcome) × Fsys
  | [] => ([], fs)
  | p :: rest =>
    let (o, fs1) := shApplyItem home ts dryRun useTrash fs p
    let (os, fs2) := shRun home ts dryRun useTrash fs1 rest
    ((p, o) :: os, fs2)

/-- bash `apply_plan` on the lines of the plan file: parse, then process
item by item. -/
def shApplyPlan (home ts : Path) (dryRun useTrash : Bool)
    (fs : Fsys) (lines : List Path) : List (Path × ShOutcome) × Fsys :=
  shRun home ts dryRun useTrash fs (parsePlanFile lines)

/-! ## Spec-side reachability

Used to state the symlink-exclusion property of the scanner: an item path
corresponds to a file node reachable from the root tree by descending
through directory entries only.  No constructor of `ReachesFile` passes
through a symlink, so reachability is exactly "the traversal crosses no
symbolic link". -/

/-- Join name segments onto a base path: `joinSegs [a, b] = /a/b`. -/
def joinSegs : List Path → Path
  | [] => []
  | n :: rest => str "/" ++ n ++ joinSegs rest

/-- `ReachesFile t segs sz mt`: starting at `t` and following the child
names `segs` through directory nodes only, one reaches
`FsTree.file sz mt`. -/
inductive ReachesFile : FsTree → List Path → Nat → Int → Prop where
  | here (sz : Nat) (mt : Int) : ReachesFile (FsTree.file sz mt) [] sz mt
  | step {es : List (Path × FsTree)} {name : Path} {t : FsTree}
      {segs : List Path} {sz : Nat} {mt : Int} :
      (name, t) ∈ es → ReachesFile t segs sz mt →
      ReachesFile (FsTree.dir es) (name :: segs) sz mt

/-! ## Helper lemmas about prefixes and substrings -/

theorem isPrefixOf_append_cancel (l a b : Path) :
    (l ++ a).isPrefixOf (l ++ b) = a.isPrefixOf b := by
  induction l with
  | nil => rfl
  | cons c t ih => simp [List.isPrefixOf, ih]

theorem isPrefixOf_append_self (l t : Path) : l.isPrefixOf (l ++ t) = true :=
  List.isPrefixOf_iff_prefix.mpr (List.prefix_append l t)

theorem isPrefixOf_of_append_left {a b p : Path}
    (h : (a ++ b).isPrefixOf p = true) : a.isPrefixOf p = true := by
  rw [List.isPrefixOf_iff_prefix] at h ⊢
  exact (List.prefix_append a b).trans h

theorem containsSub_iff (pat s : Path) :
    containsSub pat s = true ↔ ∃ a b, s = a ++ pat ++ b := by
  induction s with
  | nil =>
    constructor
    · intro h
      have hp : pat = [] := by
        simpa [containsSub, List.isEmpty_iff] using h
      exact ⟨[], [], by simp [hp]⟩
    · rintro ⟨a, b, h⟩
      rcases List.append_eq_nil.mp h.symm with ⟨h1, h2⟩
      rcases List.append_eq_nil.mp h1 with ⟨h3, h4⟩
      simp [containsSub, h4]
  | cons c t ih =>
    constructor
    · intro h
      have h2 : pat <+: (c :: t) ∨ containsSub pat t = true := by
        simpa [containsSub] using h
      rcases h2 with ⟨u, hu⟩ | h1
      · exact ⟨[], u, by simp [← hu]⟩
      · rcases ih.mp h1 with ⟨a, b, hab⟩
        exact ⟨c :: a, b, by simp [hab]⟩
    · rintro ⟨a, b, h⟩
      match a, h with
      | [], h =>
        have hpre : pat.isPrefixOf (c :: t) = true := by
          rw [List.isPrefixOf_iff_prefix]
          exact ⟨b, by simpa using h.symm⟩
        simp [containsSub, hpre]
      | a0 :: a1, h =>
        have hc : c = a0 ∧ t = a1 ++ pat ++ b := by
          simpa using h
        have ht : containsSub pat t = true := ih.mpr ⟨a1, b, hc.2⟩
        simp [containsSub, ht]

theorem mem_of_containsSub {pat s : Path} {c : Char}
    (h : containsSub pat s = true) (hc : c ∈ pat) : c ∈ s := by
  rcases (containsSub_iff pat s).mp h with ⟨a, b, rfl⟩
  simp [hc]

theorem dropThrough_eq_some {pat s r : Path} (h : dropThrough pat s = some r) :
    ∃ a, s = a ++ pat ++ r := by
  induction s with
  | nil => exact Option.noConfusion h
  | cons c t ih =>
    rw [dropThrough] at h
    split at h
    · rename_i hpre
      rcases List.isPrefixOf_iff_prefix.mp hpre with ⟨u, hu⟩
      have hr : r = u := by
        have hdrop := congrArg (List.drop pat.length) hu
        rw [List.drop_left] at hdrop
        have : some ((c :: t).drop pat.length) = some r := h
        rw [← hu, List.drop_left] at this
        exact (Option.some.injEq _ _ ▸ this).symm
      exact ⟨[], by simp [← hu, hr]⟩
    · rcases ih h with ⟨a, ha⟩
      exact ⟨c :: a, by simp [ha]⟩

/-! ## Bridging lemmas between the two deny-list implementations -/

theorem isDenyListed_of_pictures {home p : Path}
    (h : (home ++ str "/Pictures").isPrefixOf p = true) : isDenyListed home p = true := by
  simp [isDenyListed, h]

theorem isDenyListed_of_mail {home p : Path}
    (h : (home ++ str "/Library/Mail").isPrefixOf p = true) : isDenyListed home p = true := by
  simp [isDenyListed, h]

theorem isDenyListed_of_mobile {home p : Path}
    (h : (home ++ str "/Library/Mobile Documents").isPrefixOf p = true) :
    isDenyListed home p = true := by
  simp [isDenyListed, h]

theorem isDenyListed_of_desktop {home p : Path}
    (h : (home ++ str "/Desktop").isPrefixOf p = true) : isDenyListed home p = true := by
  simp [isDenyListed, h]

theorem isDenyListed_of_documents {home p : Path}
    (h : (home ++ str "/Documents").isPrefixOf p = true) : isDenyListed home p = true := by
  simp [isDenyListed, h]

theorem isDenyListed_of_photoslib {home p : Path}
    (h : containsSub (str ".photoslibrary/") p = true) : isDenyListed home p = true := by
  simp [isDenyListed, h]

/-- A boundary (`root/`) prefix implies the corresponding naive prefix. -/
theorem boundary_prefix_to_naive {home p : Path} (u : Path)
    (h : (home ++ (u ++ str "/")).isPrefixOf p = true) : (home ++ u).isPrefixOf p = true := by
  have h2 : ((home ++ u) ++ str "/").isPrefixOf p = true := by
    simpa [List.append_assoc] using h
  exact isPrefixOf_of_append_left h2

/-- Every path the bash `deny_listed` rejects is also rejected by the
server's `isDenyListed`. -/
theorem isDenyListed_of_deny_listed {home p : Path}
    (h : deny_listed home p = true) : isDenyListed home p = true := by
  have h2 := h
  simp only [deny_listed, Bool.or_eq_true] at h2
  rcases h2 with ((((h1 | h1) | h1) | h1) | h1) | h1
  · have e : str "/Pictures/" = str "/Pictures" ++ str "/" := rfl
    rw [e] at h1
    exact isDenyListed_of_pictures (boundary_prefix_to_naive _ h1)
  · rw [matchesPhotosLib] at h1
    split at h1
    · rename_i hpre
      rcases hm : dropThrough (str "Photos") (p.drop (home.length + 1)) with _ | rest
      · rw [hm] at h1
        simp at h1
      · rw [hm] at h1
        simp only at h1
        rcases dropThrough_eq_some hm with ⟨a, ha⟩
        rcases (containsSub_iff _ _).mp h1 with ⟨x, y, hxy⟩
        have hp : p = p.take (home.length + 1) ++ p.drop (home.length + 1) :=
          (List.take_append_drop _ p).symm
        refine isDenyListed_of_photoslib ((containsSub_iff _ _).mpr ?_)
        refine ⟨p.take (home.length + 1) ++ (a ++ str "Photos" ++ x), y, ?_⟩
        conv_lhs => rw [hp]
        rw [ha, hxy]
        simp [List.append_assoc]
    · simp at h1
  · have e : str "/Library/Mail/" = str "/Library/Mail" ++ str "/" := rfl
    rw [e] at h1
    exact isDenyListed_of_mail (boundary_prefix_to_naive _ h1)
  · have e : str "/Library/Mobile Documents/" = str "/Library/Mobile Documents" ++ str "/" := rfl
    rw [e] at h1
    exact isDenyListed_of_mobile (boundary_prefix_to_naive _ h1)
  · have e : str "/Desktop/" = str "/Desktop" ++ str "/" := rfl
    rw [e] at h1
    exact isDenyListed_of_desktop (boundary_prefix_to_naive _ h1)
  · have e : str "/Documents/" = str "/Documents" ++ str "/" := rfl
    rw [e] at h1
    exact isDenyListed_of_documents (boundary_prefix_to_naive _ h1)

/-! ## Scanner membership invariants -/

theorem walkEntries_mem_safe (home : Path) (opts : ScanOpts) (nowMs : Int)
    (reason category : String) (current : Path) (es : List (Path × FsTree)) :
    ∀ it ∈ walkEntries home opts nowMs reason category current es,
      ensureHomeScoped home it.path = true ∧ isDenyListed home it.path = false := by
  refine walkEntries.induct home opts nowMs reason category
    (fun cur name t => ∀ it ∈ walkEntry home opts nowMs reason category cur name t,
      ensureHomeScoped home it.path = true ∧ isDenyListed home it.path = false)
    (fun cur es2 => ∀ it ∈ walkEntries home opts nowMs reason category cur es2,
      ensureHomeScoped home it.path = true ∧ isDenyListed home it.path = false)
    ?_ ?_ ?_ ?_ ?_ ?_ ?_ current es
  · intro t cur name hg it hit
    simp only [List.append_assoc] at hg
    cases t with
    | file sz mt => simp [walkEntry, hg] at hit
    | symlink => simp [walkEntry, hg] at hit
    | dir es2 => simp [walkEntry, hg] at hit
  · intro cur name hg it hit
    simp [walkEntry] at hit
  · intro cur name hg es2 ih it hit
    simp only [List.append_assoc] at hg
    simp [walkEntry, hg] at hit
    exact ih it (by simpa using hit)
  · intro cur name hg size mtimeMs hacc it hit
    simp only [List.append_assoc] at hg
    simp [walkEntry, hg, hacc] at hit
    subst hit
    simpa [not_or] using hg
  · intro cur name hg size mtimeMs hacc it hit
    simp only [List.append_assoc] at hg
    simp [walkEntry, hg, hacc] at hit
  · intro cur it hit
    simp [walkEntries] at hit
  · intro cur name t rest ih1 ih2 it hit
    rw [walkEntries] at hit
    rcases List.mem_append.mp hit with h | h
    · exact ih1 it h
    · exact ih2 it h

theorem walkCollect_mem_safe (home : Path) (opts : ScanOpts) (nowMs : Int)
    (reason category : String) (base : Path) (t : FsTree) :
    ∀ it ∈ walkCollect home opts nowMs reason category base t,
      ensureHomeScoped home it.path = true ∧ isDenyListed home it.path = false := by
  cases t with
  | file sz mt => intro it hit; simp [walkCollect] at hit
  | symlink => intro it hit; simp [walkCollect] at hit
  | dir es =>
    intro it hit
    simp only [walkCollect] at hit
    exact walkEntries_mem_safe home opts nowMs reason category base es it hit

theorem scanItems_mem_safe (home : Path) (opts : ScanOpts) (nowMs : Int)
    (roots : List ScanRoot) :
    ∀ it ∈ scanItems home opts nowMs roots,
      ensureHomeScoped home it.path = true ∧ isDenyListed home it.path = false := by
  induction roots with
  | nil => intro it hit; simp [scanItems] at hit
  | cons r rest ih =>
    intro it hit
    rw [scanItems] at hit
    rcases List.mem_append.mp hit with h | h
    · exact walkCollect_mem_safe home opts nowMs r.reason r.category r.base r.tree it h
    · exact ih it h

/-! ## Scanner symlink exclusion -/

theorem walkEntries_mem_reaches (home : Path) (opts : ScanOpts) (nowMs : Int)
    (reason category : String) (current : Path) (es : List (Path × FsTree)) :
    ∀ it ∈ walkEntries home opts nowMs reason category current es,
      ∃ name t segs sz mt, (name, t) ∈ es
        ∧ it.path = current ++ str "/" ++ name ++ joinSegs segs
        ∧ ReachesFile t segs sz mt ∧ it.bytes = sz := by
  refine walkEntries.induct home opts nowMs reason category
    (fun cur name t => ∀ it ∈ walkEntry home opts nowMs reason category cur name t,
      ∃ segs sz mt, it.path = cur ++ str "/" ++ name ++ joinSegs segs
        ∧ ReachesFile t segs sz mt ∧ it.bytes = sz)
    (fun cur es2 => ∀ it ∈ walkEntries home opts nowMs reason category cur es2,
      ∃ name t segs sz mt, (name, t) ∈ es2
        ∧ it.path = cur ++ str "/" ++ name ++ joinSegs segs
        ∧ ReachesFile t segs sz mt ∧ it.bytes = sz)
    ?_ ?_ ?_ ?_ ?_ ?_ ?_ current es
  · intro t cur name hg it hit
    simp only [List.append_assoc] at hg
    cases t with
    | file sz mt => simp [walkEntry, hg] at hit
    | symlink => simp [walkEntry, hg] at hit
    | dir es2 => simp [walkEntry, hg] at hit
  · intro cur name hg it hit
    simp [walkEntry] at hit
  · intro cur name hg es2 ih it hit
    simp only [List.append_assoc] at hg
    simp [walkEntry, hg] at hit
    rcases ih it (by simpa using hit) with ⟨n2, t2, segs, sz, mt, hmem, hpath, hreach, hb⟩
    refine ⟨n2 :: segs, sz, mt, ?_, ReachesFile.step hmem hreach, hb⟩
    simp only [joinSegs]
    simp [hpath, List.append_assoc]
  · intro cur name hg size mtimeMs hacc it hit
    simp only [List.append_assoc] at hg
    simp [walkEntry, hg, hacc] at hit
    subst hit
    exact ⟨[], size, mtimeMs, by simp [joinSegs], ReachesFile.here size mtimeMs, rfl⟩
  · intro cur name hg size mtimeMs hacc it hit
    simp only [List.append_assoc] at hg
    simp [walkEntry, hg, hacc] at hit
  · intro cur it hit
    simp [walkEntries] at hit
  · intro cur name t rest ih1 ih2 it hit
    rw [walkEntries] at hit
    rcases List.mem_append.mp hit with h | h
    · rcases ih1 it h with ⟨segs, sz, mt, hpath, hreach, hb⟩
      exact ⟨name, t, segs, sz, mt, List.mem_cons_self _ _, hpath, hreach, hb⟩
    · rcases ih2 it h with ⟨n2, t2, segs, sz, mt, hmem, hpath, hreach, hb⟩
      exact ⟨n2, t2, segs, sz, mt, List.mem_cons_of_mem _ hmem, hpath, hreach, hb⟩

/-- Every item produced by one `walkCollect` call reaches a real file from
the base tree through directory entries only (never through a symlink). -/
theorem walkCollect_mem_reaches (home : Path) (opts : ScanOpts) (nowMs : Int)
    (reason category : String) (base : Path) (t : FsTree) :
    ∀ it ∈ walkCollect home opts nowMs reason category base t,
      ∃ segs sz mt, it.path = base ++ joinSegs segs
        ∧ ReachesFile t segs sz mt ∧ it.bytes = sz := by
  cases t with
  | file sz mt => intro it hit; simp [walkCollect] at hit
  | symlink => intro it hit; simp [walkCollect] at hit
  | dir es =>
    intro it hit
    simp only [walkCollect] at hit
    rcases walkEntries_mem_reaches home opts nowMs reason category base es it hit with
      ⟨name, t2, segs, sz, mt, hmem, hpath, hreach, hb⟩
    refine ⟨name :: segs, sz, mt, ?_, ReachesFile.step hmem hreach, hb⟩
    simp only [joinSegs]
    simp [hpath, List.append_assoc]

theorem scanItems_mem_reaches (home : Path) (opts : ScanOpts) (nowMs : Int)
    (roots : List ScanRoot) :
    ∀ it ∈ scanItems home opts nowMs roots,
      ∃ r ∈ roots, ∃ segs sz mt, it.path = r.base ++ joinSegs segs
        ∧ ReachesFile r.tree segs sz mt ∧ it.bytes = sz := by
  induction roots with
  | nil => intro it hit; simp [scanItems] at hit
  | cons r rest ih =>
    intro it hit
    rw [scanItems] at hit
    rcases List.mem_append.mp hit with h | h
    · rcases walkCollect_mem_reaches home opts nowMs r.reason r.category r.base r.tree it h with
        ⟨segs, sz, mt, hpath, hreach, hb⟩
      exact ⟨r, List.mem_cons_self _ _, segs, sz, mt, hpath, hreach, hb⟩
    · rcases ih it h with ⟨r2, hr2, segs, sz, mt, hpath, hreach, hb⟩
      exact ⟨r2, List.mem_cons_of_mem _ hr2, segs, sz, mt, hpath, hreach, hb⟩

/-! ## PlanExecutor step lemmas -/

theorem isDenyListed_nil (home : Path) : isDenyListed home [] = false := by
  cases home with
  | nil => rfl
  | cons c t => rfl

theorem ensureHomeScoped_nil (home : Path) : ensureHomeScoped home [] = false := by
  cases home with
  | nil => rfl
  | cons c t => rfl

/-- The conjunction of the per-item guards at the top of `applyHandler`'s
loop: a nonempty existing path, in home scope and not deny-listed.  Items
passing these reach the stat/preview/mutation stage. -/
def passesChecks (home : Path) (fs : Fsys) (it : PlanItem) : Bool :=
  !it.path.isEmpty && fs.existsP it.path && ensureHomeScoped home it.path
    && !isDenyListed home it.path

theorem applyItem_dry_fs (home ts : Path) (mode : ApplyMode) (fs : Fsys) (it : PlanItem) :
    (applyItem home ts true mode fs it).fs = fs := by
  rw [applyItem]
  split
  · rfl
  · split
    · rfl
    · split
      · rfl
      · rfl

theorem applyItem_dry_counted (home ts : Path) (mode : ApplyMode) (fs : Fsys) (it : PlanItem) :
    (applyItem home ts true mode fs it).counted = passesChecks home fs it := by
  rw [applyItem, passesChecks]
  split
  · rename_i h
    simp only [Bool.or_eq_true] at h
    rcases h with h | h
    · simp [h]
    · simp only [Bool.not_eq_true'] at h
      simp [h]
  · rename_i h
    simp only [Bool.or_eq_true, not_or] at h
    split
    · rename_i h2
      simp_all
    · split
      · rename_i h3
        simp_all
      · simp_all

theorem applyItem_dry_addBytes (home ts : Path) (mode : ApplyMode) (fs : Fsys) (it : PlanItem) :
    (applyItem home ts true mode fs it).addBytes
      = if passesChecks home fs it then statBytes fs it.path else 0 := by
  rw [applyItem, passesChecks]
  split
  · rename_i h
    simp only [Bool.or_eq_true] at h
    rcases h with h | h
    · simp [h]
    · simp only [Bool.not_eq_true'] at h
      simp [h]
  · rename_i h
    simp only [Bool.or_eq_true, not_or] at h
    split
    · rename_i h2
      simp_all
    · split
      · rename_i h3
        simp_all
      · simp_all

theorem applyItem_dry_detail (home ts : Path) (mode : ApplyMode) (fs : Fsys) (it : PlanItem)
    (h : passesChecks home fs it = true) :
    (applyItem home ts true mode fs it).detail
      = ⟨it.path, ApplyStatus.dryPreviewed, statBytes fs it.path, none, none⟩ := by
  rw [passesChecks] at h
  simp only [Bool.and_eq_true, Bool.not_eq_true'] at h
  rw [applyItem]
  split
  · rename_i h2
    simp only [Bool.or_eq_true] at h2
    rcases h2 with h2 | h2
    · simp_all
    · simp_all
  · split
    · rename_i h2
      simp_all
    · split
      · rename_i h2
        simp_all
      · rfl

/-! ## Loop-level lemmas -/

theorem applyItems_dry_spec (home ts : Path) (mode : ApplyMode) (fs : Fsys) :
    ∀ l : List PlanItem,
      applyItems home ts true mode fs l
        = (l.map (fun it => (applyItem home ts true mode fs it).detail),
           (l.filter (passesChecks home fs)).length,
           ((l.filter (passesChecks home fs)).map (fun it => statBytes fs it.path)).sum,
           fs) := by
  intro l
  induction l with
  | nil => simp [applyItems]
  | cons x xs ih =>
    rw [applyItems]
    rw [applyItem_dry_fs home ts mode fs x, ih]
    rcases hp : passesChecks home fs x with _ | _
    · simp [applyItem_dry_counted, applyItem_dry_addBytes, hp, List.filter_cons]
    · simp [applyItem_dry_counted, applyItem_dry_addBytes, hp, List.filter_cons]
      omega

theorem applyItems_length (home ts : Path) (dryRun : Bool) (mode : ApplyMode) :
    ∀ (l : List PlanItem) (fs : Fsys),
      (applyItems home ts dryRun mode fs l).1.length = l.length := by
  intro l
  induction l with
  | nil => intro fs; simp [applyItems]
  | cons x xs ih =>
    intro fs
    rw [applyItems]
    simp [ih]

theorem applyItem_counted_status (home ts : Path) (dryRun : Bool) (mode : ApplyMode)
    (fs : Fsys) (it : PlanItem) :
    (applyItem home ts dryRun mode fs it).counted
        = countedStatus (applyItem home ts dryRun mode fs it).detail.status
      ∧ (applyItem home ts dryRun mode fs it).addBytes
        = (if (applyItem home ts dryRun mode fs it).counted then
            (applyItem home ts dryRun mode fs it).detail.bytes else 0) := by
  rcases mode with _ | _
  · rw [applyItem]
    split
    · simp [countedStatus]
    · split
      · simp [countedStatus]
      · split
        · simp [countedStatus]
        · split
          · simp [countedStatus]
          · rcases hm : safeTrashMove home ts fs it.path with ⟨e | d, fs1⟩
            · simp [hm, countedStatus]
            · simp [hm, countedStatus]
  · rw [applyItem]
    split
    · simp [countedStatus]
    · split
      · simp [countedStatus]
      · split
        · simp [countedStatus]
        · split
          · simp [countedStatus]
          · by_cases hf : it.path ∈ fs.failPaths
            · simp [hf, countedStatus]
            · simp [hf, countedStatus]

theorem applyItems_totals_spec (home ts : Path) (dryRun : Bool) (mode : ApplyMode) :
    ∀ (l : List PlanItem) (fs : Fsys),
      (applyItems home ts dryRun mode fs l).2.1
          = ((applyItems home ts dryRun mode fs l).1.filter
              (fun d => countedStatus d.status)).length
        ∧ (applyItems home ts dryRun mode fs l).2.2.1
          = (((applyItems home ts dryRun mode fs l).1.filter
              (fun d => countedStatus d.status)).map ApplyDetail.bytes).sum := by
  intro l
  induction l with
  | nil => intro fs; simp [applyItems]
  | cons x xs ih =>
    intro fs
    rw [applyItems]
    rcases applyItem_counted_status home ts dryRun mode fs x with ⟨hc, hb⟩
    rcases ih (applyItem home ts dryRun mode fs x).fs with ⟨ihc, ihb⟩
    rcases hcs : countedStatus (applyItem home ts dryRun mode fs x).detail.status with _ | _
    · simp [List.filter_cons, hcs, hc, hb, ihc, ihb]
    · simp [List.filter_cons, hcs, hc, hb, ihc, ihb]
      omega

/-! ## Further step lemmas -/

theorem applyItem_denyListed (home ts : Path) (dryRun : Bool) (mode : ApplyMode)
    (fs : Fsys) (it : PlanItem)
    (hex : fs.existsP it.path = true)
    (hscope : ensureHomeScoped home it.path = true)
    (hdeny : isDenyListed home it.path = true) :
    applyItem home ts dryRun mode fs it
      = ⟨⟨it.path, ApplyStatus.denyListed, 0, none, none⟩, false, 0, fs⟩ := by
  have hne : it.path.isEmpty = false := by
    rcases hp : it.path with _ | ⟨c, t⟩
    · rw [hp, ensureHomeScoped_nil] at hscope
      exact absurd hscope (by simp)
    · rfl
  rw [applyItem]
  simp [hne, hex, hscope, hdeny]

theorem ensureTrashDir_failPaths (home : Path) (fs : Fsys) :
    (ensureTrashDir home fs).2.failPaths = fs.failPaths := by
  rw [ensureTrashDir]
  rcases h : fs.lookup (home ++ str "/.Trash") with _ | n
  · simp
  · simp

theorem safeTrashMove_fail {home ts : Path} {fs : Fsys} {p : Path}
    (hfail : p ∈ fs.failPaths) :
    ∃ msg fs1, safeTrashMove home ts fs p = (Except.error msg, fs1) := by
  rw [safeTrashMove]
  rcases he : ensureTrashDir home fs with ⟨t, fs1⟩
  have hfp : fs1.failPaths = fs.failPaths := by
    have h2 := ensureTrashDir_failPaths home fs
    rw [he] at h2
    exact h2
  simp only [hfp, hfail, if_true, ite_true]
  exact ⟨"rename failed", fs1, rfl⟩

theorem safeTrashMove_ok {home ts : Path} {fs : Fsys} {p : Path}
    (hfail : p ∉ fs.failPaths) :
    ∃ dest fs1, safeTrashMove home ts fs p = (Except.ok dest, fs1) := by
  rw [safeTrashMove]
  rcases he : ensureTrashDir home fs with ⟨t, fs1⟩
  have hfp : fs1.failPaths = fs.failPaths := by
    have h2 := ensureTrashDir_failPaths home fs
    rw [he] at h2
    exact h2
  simp only [hfp, hfail, if_false, ite_false]
  refine ⟨_, _, rfl⟩

theorem applyItem_fail_error (home ts : Path) (mode : ApplyMode) (fs : Fsys) (it : PlanItem)
    (hpass : passesChecks home fs it = true) (hfail : it.path ∈ fs.failPaths) :
    (applyItem home ts false mode fs it).detail.status = ApplyStatus.error
    ∧ (applyItem home ts false mode fs it).counted = false
    ∧ (applyItem home ts false mode fs it).detail.err.isSome = true := by
  rw [passesChecks] at hpass
  simp only [Bool.and_eq_true, Bool.not_eq_true'] at hpass
  obtain ⟨⟨⟨hne, hex⟩, hscope⟩, hdeny⟩ := hpass
  rcases mode with _ | _
  · rcases @safeTrashMove_fail home ts fs it.path hfail with ⟨msg, fs1, hm⟩
    rw [applyItem]
    simp [hne, hex, hscope, hdeny, hm]
  · rw [applyItem]
    simp [hne, hex, hscope, hdeny, hfail]

theorem applyItem_trash_not_deleted (home ts : Path) (dryRun : Bool)
    (fs : Fsys) (it : PlanItem) :
    (applyItem home ts dryRun ApplyMode.trash fs it).detail.status ≠ ApplyStatus.deleted := by
  rw [applyItem]
  split
  · simp
  · split
    · simp
    · split
      · simp
      · split
        · simp
        · rcases hm : safeTrashMove home ts fs it.path with ⟨e | d, fs1⟩
          · simp [hm]
          · simp [hm]

theorem applyItems_trash_not_deleted (home ts : Path) (dryRun : Bool) :
    ∀ (l : List PlanItem) (fs : Fsys),
      ∀ d ∈ (applyItems home ts dryRun ApplyMode.trash fs l).1,
        d.status ≠ ApplyStatus.deleted := by
  intro l
  induction l with
  | nil => intro fs d hd; simp [applyItems] at hd
  | cons x xs ih =>
    intro fs d hd
    rw [applyItems] at hd
    simp only [List.mem_cons] at hd
    rcases hd with rfl | hd
    · exact applyItem_trash_not_deleted home ts dryRun fs x
    · exact ih _ d hd

theorem applyItem_symlink_delete (home ts : Path) (fs : Fsys) (it : PlanItem) (tgt : Path)
    (hsl : fs.lookup it.path = some (FNode.symlink tgt))
    (hex : fs.existsP it.path = true)
    (hscope : ensureHomeScoped home it.path = true)
    (hdeny : isDenyListed home it.path = false)
    (hfail : it.path ∉ fs.failPaths) :
    (applyItem home ts false ApplyMode.delete fs it).detail.status = ApplyStatus.deleted
    ∧ (applyItem home ts false ApplyMode.delete fs it).fs = fs.removeOne it.path := by
  have hne : it.path.isEmpty = false := by
    rcases hp : it.path with _ | ⟨c, t⟩
    · rw [hp, ensureHomeScoped_nil] at hscope
      exact absurd hscope (by simp)
    · rfl
  rw [applyItem]
  simp only [hne, hex, hscope, hdeny, hfail, Bool.not_true, Bool.or_false, Bool.not_false,
    Bool.false_or, if_false, ite_false, if_true, ite_true, Bool.or_self]
  have hsl2 : lookupEntries fs.entries it.path = some (FNode.symlink tgt) := hsl
  simp [rmModel, Fsys.lookup, hsl, hsl2]

theorem applyItem_symlink_trash (home ts : Path) (fs : Fsys) (it : PlanItem) (tgt : Path)
    (hsl : fs.lookup it.path = some (FNode.symlink tgt))
    (hex : fs.existsP it.path = true)
    (hscope : ensureHomeScoped home it.path = true)
    (hdeny : isDenyListed home it.path = false)
    (hfail : it.path ∉ fs.failPaths) :
    (applyItem home ts false ApplyMode.trash fs it).detail.status = ApplyStatus.trashed := by
  have hne : it.path.isEmpty = false := by
    rcases hp : it.path with _ | ⟨c, t⟩
    · rw [hp, ensureHomeScoped_nil] at hscope
      exact absurd hscope (by simp)
    · rfl
  rcases @safeTrashMove_ok home ts fs it.path hfail with ⟨dest, fs1, hm⟩
  rw [applyItem]
  simp [hne, hex, hscope, hdeny, hm]

/-! ## Claim theorems -/

/-- C1: for every scan call and every item in the report it returns, the
item's path lies under the home root (`ensureHomeScoped`) and under no
deny-listed subtree: the scanner's own deny check rejects it
(`isDenyListed = false`), and in particular the path is not under any of
the five deny-listed subtrees at a segment boundary — regardless of the
categories, `minSize`, or `minAge` requested. -/
theorem C1_report_items_safe :
    ∀ (home : Path) (opts : ScanOpts) (nowMs : Int) (cats : List String)
      (roots : List ScanRoot),
      ∀ it ∈ (scanHandler home opts nowMs cats roots).items,
        ensureHomeScoped home it.path = true
        ∧ isDenyListed home it.path = false
        ∧ (home ++ str "/Pictures/").isPrefixOf it.path = false
        ∧ (home ++ str "/Library/Mail/").isPrefixOf it.path = false
        ∧ (home ++ str "/Library/Mobile Documents/").isPrefixOf it.path = false
        ∧ (home ++ str "/Desktop/").isPrefixOf it.path = false
        ∧ (home ++ str "/Documents/").isPrefixOf it.path = false := by
  intro home opts nowMs cats roots it hit
  have h := scanItems_mem_safe home opts nowMs roots it (by simpa [scanHandler] using hit)
  refine ⟨h.1, h.2, ?_, ?_, ?_, ?_, ?_⟩
  · refine Bool.eq_false_iff.mpr (fun hb => ?_)
    have e : str "/Pictures/" = str "/Pictures" ++ str "/" := rfl
    rw [e] at hb
    have hd := isDenyListed_of_pictures (boundary_prefix_to_naive _ hb)
    rw [h.2] at hd
    exact absurd hd (by simp)
  · refine Bool.eq_false_iff.mpr (fun hb => ?_)
    have e : str "/Library/Mail/" = str "/Library/Mail" ++ str "/" := rfl
    rw [e] at hb
    have hd := isDenyListed_of_mail (boundary_prefix_to_naive _ hb)
    rw [h.2] at hd
    exact absurd hd (by simp)
  · refine Bool.eq_false_iff.mpr (fun hb => ?_)
    have e : str "/Library/Mobile Documents/" = str "/Library/Mobile Documents" ++ str "/" := rfl
    rw [e] at hb
    have hd := isDenyListed_of_mobile (boundary_prefix_to_naive _ hb)
    rw [h.2] at hd
    exact absurd hd (by simp)
  · refine Bool.eq_false_iff.mpr (fun hb => ?_)
    have e : str "/Desktop/" = str "/Desktop" ++ str "/" := rfl
    rw [e] at hb
    have hd := isDenyListed_of_desktop (boundary_prefix_to_naive _ hb)
    rw [h.2] at hd
    exact absurd hd (by simp)
  · refine Bool.eq_false_iff.mpr (fun hb => ?_)
    have e : str "/Documents/" = str "/Documents" ++ str "/" := rfl
    rw [e] at hb
    have hd := isDenyListed_of_documents (boundary_prefix_to_naive _ hb)
    rw [h.2] at hd
    exact absurd hd (by simp)

/-- C1 witness: a concrete scan over one cache root containing one file;
the produced item satisfies all the scope and deny-list conclusions. -/
theorem C1_witness :
    (⟨str "/Users/u/Library/Caches/a.bin", 10, 0, "user-caches", "User Library cache", true⟩ : ScanItem)
      ∈ (scanHandler (str "/Users/u") ⟨0, 0⟩ 0 ["user-caches"]
          [⟨str "/Users/u/Library/Caches",
            FsTree.dir [(str "a.bin", FsTree.file 10 0)],
            "User Library cache", "user-caches"⟩]).items
    ∧ (ensureHomeScoped (str "/Users/u") (str "/Users/u/Library/Caches/a.bin") = true
      ∧ isDenyListed (str "/Users/u") (str "/Users/u/Library/Caches/a.bin") = false
      ∧ (str "/Users/u" ++ str "/Pictures/").isPrefixOf (str "/Users/u/Library/Caches/a.bin") = false
      ∧ (str "/Users/u" ++ str "/Library/Mail/").isPrefixOf (str "/Users/u/Library/Caches/a.bin") = false
      ∧ (str "/Users/u" ++ str "/Library/Mobile Documents/").isPrefixOf (str "/Users/u/Library/Caches/a.bin") = false
      ∧ (str "/Users/u" ++ str "/Desktop/").isPrefixOf (str "/Users/u/Library/Caches/a.bin") = false
      ∧ (str "/Users/u" ++ str "/Documents/").isPrefixOf (str "/Users/u/Library/Caches/a.bin") = false) :=
  ⟨by decide,
   C1_report_items_safe (str "/Users/u") ⟨0, 0⟩ 0 ["user-caches"]
     [⟨str "/Users/u/Library/Caches",
       FsTree.dir [(str "a.bin", FsTree.file 10 0)],
       "User Library cache", "user-caches"⟩]
     ⟨str "/Users/u/Library/Caches/a.bin", 10, 0, "user-caches", "User Library cache", true⟩
     (by decide)⟩

theorem computeTotals_spec (items : List ScanItem) :
    computeTotals items = ⟨items.length, (items.map ScanItem.bytes).sum⟩ := by
  have h : ∀ (l : List ScanItem) (acc : Totals),
      l.foldl (fun acc it => ⟨acc.count + 1, acc.bytes + it.bytes⟩) acc
        = ⟨acc.count + l.length, acc.bytes + (l.map ScanItem.bytes).sum⟩ := by
    intro l
    induction l with
    | nil => intro acc; simp
    | cons x xs ih =>
      intro acc
      rw [List.foldl_cons, ih]
      simp [Totals.mk.injEq]
      omega
  simpa [computeTotals] using h items ⟨0, 0⟩

/-- C6: for every report produced by a scan call, `totals.bytes` is the
sum of the `bytes` fields of all items and `totals.count` is the number
of items. -/
theorem C6_totals_consistent :
    ∀ (home : Path) (opts : ScanOpts) (nowMs : Int) (cats : List String)
      (roots : List ScanRoot),
      (scanHandler home opts nowMs cats roots).totals.bytes
        = ((scanHandler home opts nowMs cats roots).items.map ScanItem.bytes).sum
      ∧ (scanHandler home opts nowMs cats roots).totals.count
        = (scanHandler home opts nowMs cats roots).items.length := by
  intro home opts nowMs cats roots
  simp [scanHandler, computeTotals_spec]

/-- C8: the scan filters are inclusive lower bounds — a visited file is
accepted iff `minBytes ≤ bytes` (when `minBytes` is set, i.e. nonzero)
and the file's age in milliseconds is at least `olderDays` days (when
that filter is set); an unset/zero filter imposes no constraint.  The
second conjunct is the spec's fixture scenario: `minSizeBytes =
52428800`, `minAgeDays = 30`, one 60 MB file and one 10 MB file both
aged 40 days — the report holds exactly the 60 MB file. -/
theorem C8_filters_inclusive :
    (∀ (opts : ScanOpts) (nowMs : Int) (bytes : Nat) (mtimeMs : Int),
      fileAccepted opts nowMs bytes mtimeMs = true
        ↔ ((opts.minBytes ≠ 0 → opts.minBytes ≤ bytes)
          ∧ (0 < opts.olderDays →
              (opts.olderDays : Int) * 86400 * 1000 ≤ nowMs - mtimeMs)))
    ∧ (scanHandler (str "/Users/u") ⟨52428800, 30⟩ 4000000000 ["user-caches"]
          [⟨str "/Users/u/Library/Caches",
            FsTree.dir [(str "big.bin", FsTree.file 62914560 544000000),
                        (str "small.bin", FsTree.file 10485760 544000000)],
            "User Library cache", "user-caches"⟩]).items
        = [⟨str "/Users/u/Library/Caches/big.bin", 62914560, 544000,
            "user-caches", "User Library cache", true⟩] := by
  constructor
  · intro opts nowMs bytes mtimeMs
    rw [fileAccepted]
    split
    · rename_i h1
      constructor
      · intro hfalse; exact absurd hfalse (by simp)
      · rintro ⟨ha, hb⟩
        exact absurd (ha h1.1) (Nat.not_le.mpr h1.2)
    · rename_i h1
      split
      · rename_i h2
        constructor
        · intro hfalse; exact absurd hfalse (by simp)
        · rintro ⟨ha, hb⟩
          exact absurd (hb h2.1) (not_le.mpr h2.2)
      · rename_i h2
        constructor
        · intro _
          constructor
          · intro hmb
            exact Nat.le_of_not_lt (fun hlt => h1 ⟨hmb, hlt⟩)
          · intro hod
            exact le_of_not_lt (fun hlt => h2 ⟨hod, hlt⟩)
        · intro _; rfl
  · decide

/-- C3: for every apply call with `dryRun = true`, in any mode, no
filesystem mutation is performed — the filesystem after the call equals
the one before — every item that passes the missing/scope/deny checks
receives status `DRY_PREVIEWED`, and the summary totals count exactly
those items with their freshly stat-ed sizes. -/
theorem C3_dry_run_frame :
    ∀ (home ts : Path) (mode : ApplyMode) (fs : Fsys) (plan : Plan),
      (applyHandler home ts true mode fs plan).2 = fs
      ∧ (applyHandler home ts true mode fs plan).1.details
          = plan.items.map (fun it => (applyItem home ts true mode fs it).detail)
      ∧ (∀ it ∈ plan.items, passesChecks home fs it = true →
          (applyItem home ts true mode fs it).detail
            = ⟨it.path, ApplyStatus.dryPreviewed, statBytes fs it.path, none, none⟩)
      ∧ (applyHandler home ts true mode fs plan).1.summary.count
          = (plan.items.filter (passesChecks home fs)).length
      ∧ (applyHandler home ts true mode fs plan).1.summary.bytes
          = ((plan.items.filter (passesChecks home fs)).map
              (fun it => statBytes fs it.path)).sum := by
  intro home ts mode fs plan
  have h := applyItems_dry_spec home ts mode fs plan.items
  refine ⟨?_, ?_, ?_, ?_, ?_⟩
  · simp [applyHandler, h]
  · simp [applyHandler, h]
  · intro it hmem hp
    exact applyItem_dry_detail home ts mode fs it hp
  · simp [applyHandler, h]
  · simp [applyHandler, h]

/-- C3 witness: a concrete dry-run delete call over a one-file
filesystem leaves the filesystem unchanged and previews the item. -/
theorem C3_witness :
    (applyHandler (str "/Users/u") (str "20260101-000000") true ApplyMode.delete
        ⟨[(str "/Users/u/Library/Caches/a.bin", FNode.file 10)], []⟩
        ⟨[⟨str "/Users/u/Library/Caches/a.bin", "user-caches"⟩]⟩).2
      = ⟨[(str "/Users/u/Library/Caches/a.bin", FNode.file 10)], []⟩
    ∧ (applyItem (str "/Users/u") (str "20260101-000000") true ApplyMode.delete
        ⟨[(str "/Users/u/Library/Caches/a.bin", FNode.file 10)], []⟩
        ⟨str "/Users/u/Library/Caches/a.bin", "user-caches"⟩).detail
      = ⟨str "/Users/u/Library/Caches/a.bin", ApplyStatus.dryPreviewed, 10, none, none⟩ :=
  ⟨(C3_dry_run_frame (str "/Users/u") (str "20260101-000000") ApplyMode.delete
      ⟨[(str "/Users/u/Library/Caches/a.bin", FNode.file 10)], []⟩
      ⟨[⟨str "/Users/u/Library/Caches/a.bin", "user-caches"⟩]⟩).1,
   ((C3_dry_run_frame (str "/Users/u") (str "20260101-000000") ApplyMode.delete
      ⟨[(str "/Users/u/Library/Caches/a.bin", FNode.file 10)], []⟩
      ⟨[⟨str "/Users/u/Library/Caches/a.bin", "user-caches"⟩]⟩).2.2.1
      ⟨str "/Users/u/Library/Caches/a.bin", "user-caches"⟩
      (by decide) (by decide))⟩

/-- C10: the mode parameter yields permanent deletion only for the exact
string `delete` — any other value (absent, empty, or unrecognized)
parses to trash mode, and a trash-mode apply call never assigns the
`DELETED` status to any item (the in-place removal branch is never
taken). -/
theorem C10_default_mode_trash :
    (∀ m : Option Path, m ≠ some (str "delete") → parseMode m = ApplyMode.trash)
    ∧ (∀ (home ts : Path) (dryRun : Bool) (fs : Fsys) (plan : Plan),
        ∀ d ∈ (applyHandler home ts dryRun ApplyMode.trash fs plan).1.details,
          d.status ≠ ApplyStatus.deleted) := by
  constructor
  · intro m hm
    rw [parseMode]
    simp [hm]
  · intro home ts dryRun fs plan d hd
    have h2 : d ∈ (applyItems home ts dryRun ApplyMode.trash fs plan.items).1 := by
      simpa [applyHandler] using hd
    exact applyItems_trash_not_deleted home ts dryRun plan.items fs d h2

/-- C10 witness: an unrecognized mode string parses to trash, and in a
concrete trash-mode apply the produced detail is `TRASHED`, not
`DELETED`. -/
theorem C10_witness :
    parseMode (some (str "remove")) = ApplyMode.trash
    ∧ (⟨str "/Users/u/Library/Caches/a.bin", ApplyStatus.trashed, 10,
        some (str "/Users/u/.Trash/a.bin"), none⟩ : ApplyDetail).status
      ≠ ApplyStatus.deleted :=
  ⟨C10_default_mode_trash.1 (some (str "remove")) (by decide),
   C10_default_mode_trash.2 (str "/Users/u") (str "20260101-000000") false
     ⟨[(str "/Users/u/Library/Caches/a.bin", FNode.file 10)], []⟩
     ⟨[⟨str "/Users/u/Library/Caches/a.bin", "user-caches"⟩]⟩
     ⟨str "/Users/u/Library/Caches/a.bin", ApplyStatus.trashed, 10,
       some (str "/Users/u/.Trash/a.bin"), none⟩
     (by decide)⟩

/-- C7: apply isolates per-item failures.  For every plan whose body
parses, the call returns an ok response with one detail per plan item
(so items after a failing one are still processed), and the summary
accumulates count/bytes exactly over the details whose status is
`DRY_PREVIEWED`, `TRASHED`, or `DELETED` — an `ERROR` item is excluded.
Moreover, whenever the trash or delete syscall on an item throws (the
fault oracle names its path), that item's terminal status is `ERROR`,
it is not counted, and the detail carries the cause. -/
theorem C7_per_item_failure_isolation :
    (∀ (home ts : Path) (dryRun : Bool) (mode : ApplyMode) (fs : Fsys) (plan : Plan),
        applyEntry home ts dryRun mode fs (some plan)
          = (ApplyResponse.okResult (applyHandler home ts dryRun mode fs plan).1,
             (applyHandler home ts dryRun mode fs plan).2)
        ∧ (applyHandler home ts dryRun mode fs plan).1.ok = true
        ∧ (applyHandler home ts dryRun mode fs plan).1.details.length = plan.items.length
        ∧ (applyHandler home ts dryRun mode fs plan).1.summary.count
          = ((applyHandler home ts dryRun mode fs plan).1.details.filter
              (fun d => countedStatus d.status)).length
        ∧ (applyHandler home ts dryRun mode fs plan).1.summary.bytes
          = (((applyHandler home ts dryRun mode fs plan).1.details.filter
              (fun d => countedStatus d.status)).map ApplyDetail.bytes).sum)
    ∧ (∀ (home ts : Path) (mode : ApplyMode) (fs : Fsys) (it : PlanItem),
        passesChecks home fs it = true → it.path ∈ fs.failPaths →
          (applyItem home ts false mode fs it).detail.status = ApplyStatus.error
          ∧ (applyItem home ts false mode fs it).counted = false
          ∧ (applyItem home ts false mode fs it).detail.err.isSome = true) := by
  constructor
  · intro home ts dryRun mode fs plan
    rcases applyItems_totals_spec home ts dryRun mode plan.items fs with ⟨hc, hb⟩
    refine ⟨rfl, rfl, ?_, ?_, ?_⟩
    · simp [applyHandler, applyItems_length]
    · simp only [applyHandler]
      exact hc
    · simp only [applyHandler]
      exact hb
  · intro home ts mode fs it hpass hfail
    exact applyItem_fail_error home ts mode fs it hpass hfail

/-- C7 witness: a concrete two-item plan whose first item's rename
throws — the first detail is `ERROR`, the second item still processes
(two details), and the summary counts only the second item. -/
theorem C7_witness :
    (applyItem (str "/Users/u") (str "20260101-000000") false ApplyMode.trash
        ⟨[(str "/Users/u/Library/Caches/a.bin", FNode.file 5),
          (str "/Users/u/Library/Caches/b.bin", FNode.file 7)],
         [str "/Users/u/Library/Caches/a.bin"]⟩
        ⟨str "/Users/u/Library/Caches/a.bin", "user-caches"⟩).detail.status
      = ApplyStatus.error
    ∧ (applyHandler (str "/Users/u") (str "20260101-000000") false ApplyMode.trash
        ⟨[(str "/Users/u/Library/Caches/a.bin", FNode.file 5),
          (str "/Users/u/Library/Caches/b.bin", FNode.file 7)],
         [str "/Users/u/Library/Caches/a.bin"]⟩
        ⟨[⟨str "/Users/u/Library/Caches/a.bin", "user-caches"⟩,
          ⟨str "/Users/u/Library/Caches/b.bin", "user-caches"⟩]⟩).1.details.length = 2 :=
  ⟨(C7_per_item_failure_isolation.2 (str "/Users/u") (str "20260101-000000") ApplyMode.trash
      ⟨[(str "/Users/u/Library/Caches/a.bin", FNode.file 5),
        (str "/Users/u/Library/Caches/b.bin", FNode.file 7)],
       [str "/Users/u/Library/Caches/a.bin"]⟩
      ⟨str "/Users/u/Library/Caches/a.bin", "user-caches"⟩
      (by decide) (by decide)).1,
   ((C7_per_item_failure_isolation.1 (str "/Users/u") (str "20260101-000000") false ApplyMode.trash
      ⟨[(str "/Users/u/Library/Caches/a.bin", FNode.file 5),
        (str "/Users/u/Library/Caches/b.bin", FNode.file 7)],
       [str "/Users/u/Library/Caches/a.bin"]⟩
      ⟨[⟨str "/Users/u/Library/Caches/a.bin", "user-caches"⟩,
        ⟨str "/Users/u/Library/Caches/b.bin", "user-caches"⟩]⟩).2.2.1).trans (by decide)⟩

/-- C2 counterexample: a plan item under `HOME/Documents` (deny-listed)
whose path no longer exists at apply time receives status `MISSING`
(wire string `'missing'`), not `DENY_LISTED` — the claim's universal
statement fails for deny-listed paths that have vanished, because
`applyHandler` runs its `existsSync` check before the deny re-check. -/
theorem C2_counterexample :
    isDenyListed (str "/Users/u") (str "/Users/u/Documents/gone.txt") = true
    ∧ (applyHandler (str "/Users/u") (str "20260101-000000") false ApplyMode.trash
        ⟨[], []⟩ ⟨[⟨str "/Users/u/Documents/gone.txt", "docs"⟩]⟩).1.details
      = [⟨str "/Users/u/Documents/gone.txt", ApplyStatus.missing, 0, none, none⟩]
    ∧ ApplyStatus.missing ≠ ApplyStatus.denyListed := by
  refine ⟨by decide, by decide, by decide⟩

/-- C2 amended: for every apply call (any mode, dry run or not), a plan
item that exists at apply time, is home-scoped, and lies under a
deny-listed subtree receives terminal status `DENY_LISTED` and its
processing step performs no filesystem mutation — in particular a
single-item apply call on such an item returns the filesystem unchanged
and an uncounted summary — while a deny-listed item whose path no
longer exists receives `MISSING`, likewise with no mutation.  Either
way the deny check is re-evaluated at apply time before any mutation,
even if a prior scan had listed the path. -/
theorem C2_deny_recheck_at_apply :
    ∀ (home ts : Path) (dryRun : Bool) (mode : ApplyMode) (fs : Fsys) (it : PlanItem),
      isDenyListed home it.path = true →
      (fs.existsP it.path = true → ensureHomeScoped home it.path = true →
        applyItem home ts dryRun mode fs it
          = ⟨⟨it.path, ApplyStatus.denyListed, 0, none, none⟩, false, 0, fs⟩
        ∧ ∀ cat : String,
            applyHandler home ts dryRun mode fs ⟨[⟨it.path, cat⟩]⟩
              = (⟨true, ⟨0, 0, mode, dryRun⟩,
                  [⟨it.path, ApplyStatus.denyListed, 0, none, none⟩]⟩, fs))
      ∧ (fs.existsP it.path = false →
        applyItem home ts dryRun mode fs it
          = ⟨⟨it.path, ApplyStatus.missing, 0, none, none⟩, false, 0, fs⟩) := by
  intro home ts dryRun mode fs it hdeny
  constructor
  · intro hex hscope
    have hstep := applyItem_denyListed home ts dryRun mode fs it hex hscope hdeny
    refine ⟨hstep, ?_⟩
    intro cat
    have hstep2 : applyItem home ts dryRun mode fs ⟨it.path, cat⟩
        = ⟨⟨it.path, ApplyStatus.denyListed, 0, none, none⟩, false, 0, fs⟩ :=
      applyItem_denyListed home ts dryRun mode fs ⟨it.path, cat⟩ hex hscope hdeny
    rw [applyHandler, applyItems, hstep2]
    rw [applyItems]
    rfl
  · intro hex
    rw [applyItem]
    simp [hex]

/-- C2 witness: a concrete existing file under `HOME/Documents` in a
trash-mode (non-dry) apply receives `DENY_LISTED` and the filesystem is
returned unchanged. -/
theorem C2_witness :
    applyItem (str "/Users/u") (str "20260101-000000") false ApplyMode.trash
        ⟨[(str "/Users/u/Documents/f.txt", FNode.file 5)], []⟩
        ⟨str "/Users/u/Documents/f.txt", "docs"⟩
      = ⟨⟨str "/Users/u/Documents/f.txt", ApplyStatus.denyListed, 0, none, none⟩, false, 0,
         ⟨[(str "/Users/u/Documents/f.txt", FNode.file 5)], []⟩⟩
    ∧ applyHandler (str "/Users/u") (str "20260101-000000") false ApplyMode.trash
        ⟨[(str "/Users/u/Documents/f.txt", FNode.file 5)], []⟩
        ⟨[⟨str "/Users/u/Documents/f.txt", "docs"⟩]⟩
      = (⟨true, ⟨0, 0, ApplyMode.trash, false⟩,
          [⟨str "/Users/u/Documents/f.txt", ApplyStatus.denyListed, 0, none, none⟩]⟩,
         ⟨[(str "/Users/u/Documents/f.txt", FNode.file 5)], []⟩) :=
  ⟨((C2_deny_recheck_at_apply (str "/Users/u") (str "20260101-000000") false ApplyMode.trash
      ⟨[(str "/Users/u/Documents/f.txt", FNode.file 5)], []⟩
      ⟨str "/Users/u/Documents/f.txt", "docs"⟩ (by decide)).1 (by decide) (by decide)).1,
   ((C2_deny_recheck_at_apply (str "/Users/u") (str "20260101-000000") false ApplyMode.trash
      ⟨[(str "/Users/u/Documents/f.txt", FNode.file 5)], []⟩
      ⟨str "/Users/u/Documents/f.txt", "docs"⟩ (by decide)).1 (by decide) (by decide)).2 "docs"⟩

/-- C4 counterexample: a plan item that is a symbolic link (under
`HOME/Library/Caches`, in scope, not deny-listed) is deleted by a
non-dry delete-mode apply call: its detail status is `DELETED` and the
link entry is removed from the filesystem — the claim that the mutation
branch is unreachable for symlinks is false, because `applyHandler`
performs no `lstat`/`isSymbolicLink` check. -/
theorem C4_counterexample :
    (⟨[(str "/Users/u/Library/Caches/link", FNode.symlink (str "/Users/u/t.bin")),
       (str "/Users/u/t.bin", FNode.file 5)], []⟩ : Fsys).lookup
        (str "/Users/u/Library/Caches/link")
      = some (FNode.symlink (str "/Users/u/t.bin"))
    ∧ (applyHandler (str "/Users/u") (str "20260101-000000") false ApplyMode.delete
        ⟨[(str "/Users/u/Library/Caches/link", FNode.symlink (str "/Users/u/t.bin")),
          (str "/Users/u/t.bin", FNode.file 5)], []⟩
        ⟨[⟨str "/Users/u/Library/Caches/link", "user-caches"⟩]⟩).1.details
      = [⟨str "/Users/u/Library/Caches/link", ApplyStatus.deleted, 5, none, none⟩]
    ∧ (applyHandler (str "/Users/u") (str "20260101-000000") false ApplyMode.delete
        ⟨[(str "/Users/u/Library/Caches/link", FNode.symlink (str "/Users/u/t.bin")),
          (str "/Users/u/t.bin", FNode.file 5)], []⟩
        ⟨[⟨str "/Users/u/Library/Caches/link", "user-caches"⟩]⟩).2
      = ⟨[(str "/Users/u/t.bin", FNode.file 5)], []⟩ := by
  refine ⟨by decide, by decide, by decide⟩

/-- C4 amended: the scanner does exclude symlinks — every report item's
path is reached from its root tree through directory entries only
(`ReachesFile` has no symlink step) and designates a plain file — but
apply performs no symlink check: a plan item that is a symlink and
passes the missing/scope/deny checks is deleted in delete mode (the
link entry itself is unlinked) and trashed in trash mode, like any
other item. -/
theorem C4_symlink_scan_exclusion_only :
    (∀ (home : Path) (opts : ScanOpts) (nowMs : Int) (cats : List String)
        (roots : List ScanRoot),
        ∀ it ∈ (scanHandler home opts nowMs cats roots).items,
          ∃ r ∈ roots, ∃ segs sz mt, it.path = r.base ++ joinSegs segs
            ∧ ReachesFile r.tree segs sz mt ∧ it.bytes = sz)
    ∧ (∀ (home ts : Path) (fs : Fsys) (it : PlanItem) (tgt : Path),
        fs.lookup it.path = some (FNode.symlink tgt) →
        fs.existsP it.path = true →
        ensureHomeScoped home it.path = true →
        isDenyListed home it.path = false →
        it.path ∉ fs.failPaths →
        (applyItem home ts false ApplyMode.delete fs it).detail.status = ApplyStatus.deleted
        ∧ (applyItem home ts false ApplyMode.delete fs it).fs = fs.removeOne it.path
        ∧ (applyItem home ts false ApplyMode.trash fs it).detail.status
          = ApplyStatus.trashed) := by
  constructor
  · intro home opts nowMs cats roots it hit
    exact scanItems_mem_reaches home opts nowMs roots it (by simpa [scanHandler] using hit)
  · intro home ts fs it tgt hsl hex hscope hdeny hfail
    rcases applyItem_symlink_delete home ts fs it tgt hsl hex hscope hdeny hfail with ⟨h1, h2⟩
    exact ⟨h1, h2, applyItem_symlink_trash home ts fs it tgt hsl hex hscope hdeny hfail⟩

/-- C4 witness: the apply half of the amended claim at a concrete
symlink item. -/
theorem C4_witness :
    (applyItem (str "/Users/u") (str "20260101-000000") false ApplyMode.delete
        ⟨[(str "/Users/u/Library/Caches/link", FNode.symlink (str "/Users/u/t.bin")),
          (str "/Users/u/t.bin", FNode.file 5)], []⟩
        ⟨str "/Users/u/Library/Caches/link", "user-caches"⟩).detail.status
      = ApplyStatus.deleted
    ∧ (applyItem (str "/Users/u") (str "20260101-000000") false ApplyMode.trash
        ⟨[(str "/Users/u/Library/Caches/link", FNode.symlink (str "/Users/u/t.bin")),
          (str "/Users/u/t.bin", FNode.file 5)], []⟩
        ⟨str "/Users/u/Library/Caches/link", "user-caches"⟩).detail.status
      = ApplyStatus.trashed :=
  ⟨(C4_symlink_scan_exclusion_only.2 (str "/Users/u") (str "20260101-000000")
      ⟨[(str "/Users/u/Library/Caches/link", FNode.symlink (str "/Users/u/t.bin")),
        (str "/Users/u/t.bin", FNode.file 5)], []⟩
      ⟨str "/Users/u/Library/Caches/link", "user-caches"⟩ (str "/Users/u/t.bin")
      (by decide) (by decide) (by decide) (by decide) (by decide)).1,
   (C4_symlink_scan_exclusion_only.2 (str "/Users/u") (str "20260101-000000")
      ⟨[(str "/Users/u/Library/Caches/link", FNode.symlink (str "/Users/u/t.bin")),
        (str "/Users/u/t.bin", FNode.file 5)], []⟩
      ⟨str "/Users/u/Library/Caches/link", "user-caches"⟩ (str "/Users/u/t.bin")
      (by decide) (by decide) (by decide) (by decide) (by decide)).2.2⟩

theorem isPrefixOf_false_of_head_ne (l a b : Path) (x y : Char) (hxy : x ≠ y) :
    (l ++ x :: a).isPrefixOf (l ++ y :: b) = false := by
  rw [isPrefixOf_append_cancel]
  simp [List.isPrefixOf, hxy]

/-- C5 counterexample: the server's `isDenyListed` in `script.js` does
deny-list the sibling path `HOME/PicturesBackup/f` even though that
path is not under any deny-listed subtree at a segment boundary (all
five boundary checks are false, the bash `deny_listed` rejects nothing
here, and no photo-library bundle pattern occurs) — refuting the
claimed iff: `isDenyListed` matches by naive string prefix. -/
theorem C5_counterexample :
    isDenyListed (str "/Users/u") (str "/Users/u/PicturesBackup/f") = true
    ∧ deny_listed (str "/Users/u") (str "/Users/u/PicturesBackup/f") = false
    ∧ (str "/Users/u" ++ str "/Pictures/").isPrefixOf (str "/Users/u/PicturesBackup/f") = false
    ∧ (str "/Users/u" ++ str "/Library/Mail/").isPrefixOf (str "/Users/u/PicturesBackup/f") = false
    ∧ (str "/Users/u" ++ str "/Library/Mobile Documents/").isPrefixOf
        (str "/Users/u/PicturesBackup/f") = false
    ∧ (str "/Users/u" ++ str "/Desktop/").isPrefixOf (str "/Users/u/PicturesBackup/f") = false
    ∧ (str "/Users/u" ++ str "/Documents/").isPrefixOf (str "/Users/u/PicturesBackup/f") = false
    ∧ containsSub (str ".photoslibrary/") (str "/Users/u/PicturesBackup/f") = false := by
  refine ⟨by decide, by decide, by decide, by decide, by decide, by decide, by decide, by decide⟩

/-- C5 amended: the bash `deny_listed` matches only at a path-segment
boundary — every path under `HOME/Pictures/` is denied, while a sibling
`HOME/PicturesBackup/f` (for any home and any bundle-pattern-free
remainder `f`) is not — and every bash-denied path is also denied by
the server's `isDenyListed`; but `isDenyListed` itself matches by naive
string prefix and therefore additionally denies every such
`HOME/PicturesBackup/f` sibling, so the claimed segment-boundary iff
holds for the CLI's `deny_listed`, not for the server's
`isDenyListed`. -/
theorem C5_boundary_vs_naive :
    (∀ home p : Path, deny_listed home p = true → isDenyListed home p = true)
    ∧ (∀ home rest : Path, deny_listed home (home ++ str "/Pictures/" ++ rest) = true)
    ∧ (∀ home f : Path, ('.' : Char) ∉ f →
        deny_listed home (home ++ str "/PicturesBackup/" ++ f) = false)
    ∧ (∀ home f : Path, isDenyListed home (home ++ str "/PicturesBackup/" ++ f) = true) := by
  refine ⟨fun home p => isDenyListed_of_deny_listed, ?_, ?_, ?_⟩
  · intro home rest
    have h1 : (home ++ str "/Pictures/").isPrefixOf (home ++ str "/Pictures/" ++ rest) = true := by
      have h2 := isPrefixOf_append_self (home ++ str "/Pictures/") rest
      simpa [List.append_assoc] using h2
    simp [deny_listed, h1]
  · intro home f hf
    have h1 : (home ++ str "/Pictures/").isPrefixOf (home ++ str "/PicturesBackup/" ++ f) = false := by
      have e1 : str "/Pictures/" = str "/Pictures" ++ ('/' :: ([] : Path)) := rfl
      have e2 : str "/PicturesBackup/" = str "/Pictures" ++ ('B' :: str "ackup/") := rfl
      have key := isPrefixOf_false_of_head_ne (home ++ str "/Pictures") []
        (str "ackup/" ++ f) '/' 'B' (by decide)
      rw [e1, e2]
      simpa [List.append_assoc] using key
    have h3 : (home ++ str "/Library/Mail/").isPrefixOf (home ++ str "/PicturesBackup/" ++ f) = false := by
      have e1 : str "/Library/Mail/" = str "/" ++ ('L' :: str "ibrary/Mail/") := rfl
      have e2 : str "/PicturesBackup/" = str "/" ++ ('P' :: str "icturesBackup/") := rfl
      have key := isPrefixOf_false_of_head_ne (home ++ str "/") (str "ibrary/Mail/")
        (str "icturesBackup/" ++ f) 'L' 'P' (by decide)
      rw [e1, e2]
      simpa [List.append_assoc] using key
    have h4 : (home ++ str "/Library/Mobile Documents/").isPrefixOf
        (home ++ str "/PicturesBackup/" ++ f) = false := by
      have e1 : str "/Library/Mobile Documents/" = str "/" ++ ('L' :: str "ibrary/Mobile Documents/") := rfl
      have e2 : str "/PicturesBackup/" = str "/" ++ ('P' :: str "icturesBackup/") := rfl
      have key := isPrefixOf_false_of_head_ne (home ++ str "/") (str "ibrary/Mobile Documents/")
        (str "icturesBackup/" ++ f) 'L' 'P' (by decide)
      rw [e1, e2]
      simpa [List.append_assoc] using key
    have h5 : (home ++ str "/Desktop/").isPrefixOf (home ++ str "/PicturesBackup/" ++ f) = false := by
      have e1 : str "/Desktop/" = str "/" ++ ('D' :: str "esktop/") := rfl
      have e2 : str "/PicturesBackup/" = str "/" ++ ('P' :: str "icturesBackup/") := rfl
      have key := isPrefixOf_false_of_head_ne (home ++ str "/") (str "esktop/")
        (str "icturesBackup/" ++ f) 'D' 'P' (by decide)
      rw [e1, e2]
      simpa [List.append_assoc] using key
    have h6 : (home ++ str "/Documents/").isPrefixOf (home ++ str "/PicturesBackup/" ++ f) = false := by
      have e1 : str "/Documents/" = str "/" ++ ('D' :: str "ocuments/") := rfl
      have e2 : str "/PicturesBackup/" = str "/" ++ ('P' :: str "icturesBackup/") := rfl
      have key := isPrefixOf_false_of_head_ne (home ++ str "/") (str "ocuments/")
        (str "icturesBackup/" ++ f) 'D' 'P' (by decide)
      rw [e1, e2]
      simpa [List.append_assoc] using key
    have h2 : matchesPhotosLib home (home ++ str "/PicturesBackup/" ++ f) = false := by
      rw [matchesPhotosLib]
      split
      · have hdrop : (home ++ str "/PicturesBackup/" ++ f).drop (home.length + 1)
            = str "PicturesBackup/" ++ f := by
          have e0 : str "/PicturesBackup/" = str "/" ++ str "PicturesBackup/" := rfl
          have e : home ++ str "/PicturesBackup/" ++ f
              = (home ++ str "/") ++ (str "PicturesBackup/" ++ f) := by
            rw [e0]
            simp [List.append_assoc]
          have hlen : home.length + 1 = (home ++ str "/").length := by
            simp [str]
          rw [e, hlen, List.drop_left]
        rw [hdrop]
        rcases hm : dropThrough (str "Photos") (str "PicturesBackup/" ++ f) with _ | rest
        · simp
        · simp only
          refine Bool.eq_false_iff.mpr (fun hcs => ?_)
          have hdot : ('.' : Char) ∈ rest := mem_of_containsSub hcs (by decide)
          rcases dropThrough_eq_some hm with ⟨a, ha⟩
          have hin : ('.' : Char) ∈ str "PicturesBackup/" ++ f := by
            rw [ha]
            simp [hdot]
          rcases List.mem_append.mp hin with h | h
          · exact absurd h (by decide)
          · exact absurd h hf
      · rfl
    rw [deny_listed]
    simp only [List.append_assoc] at h1 h2 h3 h4 h5 h6
    simp [h1, h2, h3, h4, h5, h6]
  · intro home f
    have e2 : str "/PicturesBackup/" = str "/Pictures" ++ str "Backup/" := rfl
    have h1 : (home ++ str "/Pictures").isPrefixOf (home ++ str "/PicturesBackup/" ++ f) = true := by
      have key := isPrefixOf_append_self (home ++ str "/Pictures") (str "Backup/" ++ f)
      rw [e2]
      simpa [List.append_assoc] using key
    exact isDenyListed_of_pictures h1

/-- C5 witness: the amended claim instantiated at a concrete home and
remainder. -/
theorem C5_witness :
    deny_listed (str "/Users/u") (str "/Users/u" ++ str "/PicturesBackup/" ++ str "f") = false
    ∧ isDenyListed (str "/Users/u") (str "/Users/u" ++ str "/PicturesBackup/" ++ str "f") = true
    ∧ deny_listed (str "/Users/u") (str "/Users/u" ++ str "/Pictures/" ++ str "f") = true
    ∧ isDenyListed (str "/Users/u") (str "/Users/u" ++ str "/Pictures/" ++ str "f") = true :=
  ⟨C5_boundary_vs_naive.2.2.1 (str "/Users/u") (str "f") (by decide),
   C5_boundary_vs_naive.2.2.2 (str "/Users/u") (str "f"),
   C5_boundary_vs_naive.2.1 (str "/Users/u") (str "f"),
   C5_boundary_vs_naive.1 (str "/Users/u") (str "/Users/u" ++ str "/Pictures/" ++ str "f")
     (C5_boundary_vs_naive.2.1 (str "/Users/u") (str "f"))⟩

theorem shRun_paths (home ts : Path) (dryRun useTrash : Bool) :
    ∀ (ps : List Path) (fs : Fsys),
      (shRun home ts dryRun useTrash fs ps).1.map Prod.fst = ps := by
  intro ps
  induction ps with
  | nil => intro fs; simp [shRun]
  | cons p rest ih =>
    intro fs
    rw [shRun]
    simp [ih]

/-- C9: the CLI apply entry point accepts, besides the JSON plan shape,
the plain-text plan form — one path per line, blank lines and lines
whose first non-blank character is `#` ignored.  For any plan file none
of whose lines contains the dispatch substring `"items"`, the extracted
path list is exactly the non-blank, non-comment lines, and the apply
loop processes exactly those paths, one outcome per path, in order —
the input is processed item by item rather than rejected as
malformed. -/
theorem C9_plain_text_plan :
    ∀ (home ts : Path) (dryRun useTrash : Bool) (fs : Fsys) (lines : List Path),
      (∀ l ∈ lines, containsSub (str "\"items\"") l = false) →
      parsePlanFile lines
          = (lines.filter (fun l => !isBlankLine l)).filter (fun l => !isCommentLine l)
      ∧ (shApplyPlan home ts dryRun useTrash fs lines).1.map Prod.fst
          = (lines.filter (fun l => !isBlankLine l)).filter (fun l => !isCommentLine l) := by
  intro home ts dryRun useTrash fs lines hno
  have hitems : planHasItems lines = false := by
    rw [planHasItems]
    rw [List.any_eq_false]
    intro l hl
    simp [hno l hl]
  have hparse : parsePlanFile lines
      = (lines.filter (fun l => !isBlankLine l)).filter (fun l => !isCommentLine l) := by
    rw [parsePlanFile, hitems]
    simp
  refine ⟨hparse, ?_⟩
  rw [shApplyPlan, hparse]
  exact shRun_paths home ts dryRun useTrash _ fs

/-- C9 witness: a concrete plain-text plan file with a comment line, a
blank line, and one path — the apply loop runs exactly on that path. -/
theorem C9_witness :
    parsePlanFile [str "# exported plan", str "", str "/Users/u/Library/Caches/a.bin"]
      = [str "/Users/u/Library/Caches/a.bin"]
    ∧ (shApplyPlan (str "/Users/u") (str "20260101-000000") true true
        ⟨[(str "/Users/u/Library/Caches/a.bin", FNode.file 10)], []⟩
        [str "# exported plan", str "", str "/Users/u/Library/Caches/a.bin"]).1.map Prod.fst
      = [str "/Users/u/Library/Caches/a.bin"] :=
  ⟨((C9_plain_text_plan (str "/Users/u") (str "20260101-000000") true true
      ⟨[(str "/Users/u/Library/Caches/a.bin", FNode.file 10)], []⟩
      [str "# exported plan", str "", str "/Users/u/Library/Caches/a.bin"]
      (by decide)).1).trans (by decide),
   ((C9_plain_text_plan (str "/Users/u") (str "20260101-000000") true true
      ⟨[(str "/Users/u/Library/Caches/a.bin", FNode.file 10)], []⟩
      [str "# exported plan", str "", str "/Users/u/Library/Caches/a.bin"]
      (by decide)).2).trans (by decide)⟩

end DiskCleaner
